import Mathlib

/-!
Shallow embedding of `aljwaed-Backend/server.js`: a small Express file-hosting
backend with an upload route (shared-secret token, multer `.exe` filter,
uuid-renamed storage, JSON metadata append), a listing route (sort by
`uploadedAt` descending) and a download route (filename validation, metadata
lookup for the display name).

Modelling choices:
* The filesystem and metadata file are a `St` structure; I/O failures of
  `fs.writeFile` / `fs.unlink` are injected through boolean flags, and a
  corrupt/unreadable metadata file is the `MetaFile.corrupt` state.
* `uploadedAt` timestamps are `Nat` milliseconds; `new Date(iso)` ordering on
  ISO-8601 strings is order-isomorphic to the millisecond values.
* `uuidv4()` is modelled as a deterministic function of a fresh seed producing
  a canonically shaped UUID string (lowercase hex digits and hyphens).
* JS string falsiness (`undefined` or `''`) is `strTruthy = false` on
  `Option String`.
-/

/-- One metadata record, as built in the upload route (server.js lines 147-156). -/
structure SoftwareRecord where
  id : String
  name : String
  version : String
  description : String
  originalFilename : String
  serverFilename : String
  uploadedAt : Nat
  size : Nat
deriving Repr, DecidableEq

/-- State of the metadata file `metadata.json`: absent (ENOENT), readable with
a parsed list of records, or unreadable/corrupt (any other I/O or parse error). -/
inductive MetaFile where
  | absent
  | ok (records : List SoftwareRecord)
  | corrupt
deriving Repr, DecidableEq

/-- `readMetadata` (server.js lines 83-94): ENOENT yields `[]`, any other
read or parse failure is rethrown. -/
def readMetadata : MetaFile → Except Unit (List SoftwareRecord)
  | .absent => .ok []
  | .ok records => .ok records
  | .corrupt => .error ()

/-- Server-side filesystem and metadata state, with failure-injection flags for
`fs.writeFile` (metadata) and `fs.unlink`. `uploads` lists the files in the
upload directory as (serverFilename, size) pairs. -/
structure St where
  metaFile : MetaFile
  uploads : List (String × Nat)
  writeFails : Bool
  unlinkFails : Bool
deriving Repr, DecidableEq

/-- `writeMetadata` (server.js lines 97-104): whole-file overwrite, I/O errors
rethrown (the file is left unchanged when the write fails). -/
def writeMetadata (writeFails : Bool) (records : List SoftwareRecord) :
    Except Unit MetaFile :=
  if writeFails then .error () else .ok (.ok records)

/-- `fs.unlink` wrapped in try/catch as in both cleanup sites (server.js lines
137-141 and 162-166): a deletion failure is logged and swallowed. -/
def unlinkFile (st : St) (name : String) : St :=
  if st.unlinkFails then st
  else { st with uploads := st.uploads.filter (fun p => p.1 ≠ name) }

/-- JS truthiness of an optional string header/field: `undefined` and `''` are
falsy, everything else truthy. -/
def strTruthy : Option String → Bool
  | none => false
  | some s => s ≠ ""

/-- The sixteen lowercase hexadecimal digit characters. -/
def hexDigits : List Char := "0123456789abcdef".data

/-- Hex digit character of `n % 16`. -/
def hexChar (n : Nat) : Char := hexDigits.getD (n % 16) '0'

/-- Big-endian fixed-width hex rendering. -/
def natToHex : Nat → Nat → List Char
  | 0, _ => []
  | w + 1, v => natToHex w (v / 16) ++ [hexChar v]

/-- Model of `uuidv4()` from the `uuid` package: a fresh seed rendered in the
canonical 8-4-4-4-12 format (lowercase hex and hyphens, version nibble 4). -/
def uuidv4 (seed : Nat) : List Char :=
  natToHex 8 seed ++ ['-'] ++ natToHex 4 (seed / 2 ^ 32) ++ ['-', '4'] ++
    natToHex 3 (seed / 2 ^ 48) ++ ['-'] ++ natToHex 4 (seed / 2 ^ 60) ++
    ['-'] ++ natToHex 12 (seed / 2 ^ 76)

/-- Characters of `s` after the last occurrence of `sep` (the whole of `s` if
`sep` does not occur). -/
def afterLast (sep : Char) (cs : List Char) : List Char :=
  (cs.reverse.takeWhile (fun c => c ≠ sep)).reverse

/-- The characters of a basename strictly after its last dot. -/
def extTail (b : List Char) : List Char :=
  (b.reverse.takeWhile (fun c => c ≠ '.')).reverse

/-- Node's `path.extname` (posix): the suffix of the basename from its last
dot, empty when the basename has no dot, when its only dot is its first
character, or when the basename is `".."`. -/
def extname (s : String) : String :=
  if afterLast '/' s.data = ['.', '.'] then "" else
  if (afterLast '/' s.data).contains '.' then
    if (extTail (afterLast '/' s.data)).length + 1 = (afterLast '/' s.data).length
    then "" else String.mk ('.' :: extTail (afterLast '/' s.data))
  else ""

/-- JS `String.prototype.toLowerCase` restricted to the ASCII range used here. -/
def lowerStr (s : String) : String := String.mk (s.data.map Char.toLower)

/-- The raw file part of the multipart body (field `softwareFile`). -/
structure RawFile where
  originalname : String
  size : Nat
deriving Repr, DecidableEq

/-- The multipart request body: optional file part and text fields; a missing
field is `none`, an empty field `some ""`. -/
structure Body where
  file : Option RawFile
  softwareName : Option String
  softwareVersion : Option String
  softwareDescription : Option String
deriving Repr, DecidableEq

/-- `req.file` after a successful multer store. -/
structure StoredFile where
  originalname : String
  filename : String
  size : Nat
deriving Repr, DecidableEq

/-- Outcome of `upload.single('softwareFile')`: fileFilter rejection (a plain
`Error`), size-limit rejection (a `MulterError`), no file part, or a stored
file. -/
inductive MulterOut where
  | filterErr
  | sizeErr
  | noFile
  | stored (f : StoredFile)
deriving Repr, DecidableEq

/-- `limits.fileSize` (server.js line 75): 200 MiB. -/
def fileSizeLimit : Nat := 1024 * 1024 * 200

/-- `upload.single('softwareFile')` (server.js lines 55-77): the fileFilter
rejects any originalname whose lowercased `extname` is not `.exe` before
anything is written; an accepted file larger than the limit is aborted with a
`MulterError` and the partial file removed; otherwise the file is stored under
`uuidv4() + extname(originalname)`. -/
def multerSingle (freshName : Nat) (body : Body) (st : St) : MulterOut × St :=
  match body.file with
  | none => (.noFile, st)
  | some f =>
    if lowerStr (extname f.originalname) ≠ ".exe" then (.filterErr, st)
    else if fileSizeLimit < f.size then (.sizeErr, st)
    else
      let fname := String.mk (uuidv4 freshName) ++ extname f.originalname
      (.stored ⟨f.originalname, fname, f.size⟩,
        { st with uploads := st.uploads ++ [(fname, f.size)] })

/-- Response of the upload route, one constructor per `res.status(...)` site. -/
inductive UploadResult where
  | configError
  | unauthorized
  | multerError (msg : String)
  | uploadError (msg : String)
  | noFileError
  | nameRequired
  | storageError
  | created (software : SoftwareRecord)
deriving Repr, DecidableEq

/-- HTTP status code of each upload response. -/
def UploadResult.status : UploadResult → Nat
  | .configError => 500
  | .unauthorized => 401
  | .multerError _ => 400
  | .uploadError _ => 400
  | .noFileError => 400
  | .nameRequired => 400
  | .storageError => 500
  | .created _ => 201

/-- Environment configuration: `process.env.UPLOAD_TOKEN` (`none` if unset). -/
structure Env where
  secret : Option String
deriving Repr, DecidableEq

/-- The multer callback body of the upload route (server.js lines 122-169):
translate multer errors to 400s, require `req.file`, require a truthy
`softwareName` (deleting the stored file otherwise), then read-append-write
the metadata; a read or write failure deletes the stored file and yields a
500, success yields 201 with the new record. -/
def uploadAfterAuth (now freshName freshId : Nat) (body : Body) (st : St) :
    UploadResult × St :=
  match multerSingle freshName body st with
  | (.filterErr, st1) => (.uploadError "Only .exe files are allowed!", st1)
  | (.sizeErr, st1) => (.multerError "File too large", st1)
  | (.noFile, st1) => (.noFileError, st1)
  | (.stored f, st1) =>
    if strTruthy body.softwareName = false then
      (.nameRequired, unlinkFile st1 f.filename)
    else
      match readMetadata st1.metaFile with
      | .error _ => (.storageError, unlinkFile st1 f.filename)
      | .ok metadata =>
        let newSoftware : SoftwareRecord :=
          { id := String.mk (uuidv4 freshId)
            name := body.softwareName.getD ""
            version := body.softwareVersion.getD ""
            description := body.softwareDescription.getD ""
            originalFilename := f.originalname
            serverFilename := f.filename
            uploadedAt := now
            size := f.size }
        match writeMetadata st1.writeFails (metadata ++ [newSoftware]) with
        | .error _ => (.storageError, unlinkFile st1 f.filename)
        | .ok mf => (.created newSoftware, { st1 with metaFile := mf })

/-- `POST /api/software/upload` (server.js lines 107-170): a falsy server-side
secret is a 500 configuration error, a header not strictly equal to the secret
is a 401, and only then does multipart parsing run. -/
def uploadHandler (env : Env) (now freshName freshId : Nat)
    (token : Option String) (body : Body) (st : St) : UploadResult × St :=
  if strTruthy env.secret = false then (.configError, st)
  else if token ≠ env.secret then (.unauthorized, st)
  else uploadAfterAuth now freshName freshId body st

/-- Response of `GET /api/software`. -/
inductive ListResult where
  | ok (records : List SoftwareRecord)
  | fetchError
deriving Repr, DecidableEq

/-- HTTP status code of each listing response. -/
def ListResult.status : ListResult → Nat
  | .ok _ => 200
  | .fetchError => 500

/-- The JS `metadata.sort((a, b) => new Date(b.uploadedAt) - new Date(a.uploadedAt))`:
a stable sort putting larger timestamps first. -/
def sortByUploadedAtDesc (records : List SoftwareRecord) : List SoftwareRecord :=
  records.mergeSort (fun a b => b.uploadedAt ≤ a.uploadedAt)

/-- `GET /api/software` (server.js lines 173-181): read the store, sort newest
first, 500 on any store failure. -/
def listHandler (st : St) : ListResult :=
  match readMetadata st.metaFile with
  | .error _ => .fetchError
  | .ok metadata => .ok (sortByUploadedAtDesc metadata)

/-- Response of `GET /api/software/download/:serverFilename`. -/
inductive DownloadResult where
  | invalidName
  | notFound
  | ok (downloadName : String)
deriving Repr, DecidableEq

/-- HTTP status code of each download response. -/
def DownloadResult.status : DownloadResult → Nat
  | .invalidName => 400
  | .notFound => 404
  | .ok _ => 200

/-- `serverFilename.includes('..') || serverFilename.includes('/')`
(server.js line 189). -/
def nameBlocked (s : String) : Bool :=
  decide (['.', '.'] <:+: s.data) || decide ('/' ∈ s.data)

/-- `GET /api/software/download/:serverFilename` (server.js lines 184-210):
reject unsafe names with 400 before touching the filesystem; `fs.access`
failure, and any error thrown afterwards (including a metadata read failure),
is caught by the surrounding catch and reported 404; otherwise the stream is
named by the matching record's `originalFilename`, falling back to the raw
stored name. -/
def downloadHandler (name : String) (st : St) : DownloadResult :=
  if nameBlocked name then .invalidName
  else if st.uploads.any (fun p => p.1 = name) then
    match readMetadata st.metaFile with
    | .error _ => .notFound
    | .ok metadata =>
      match metadata.find? (fun s => s.serverFilename = name) with
      | some info => .ok info.originalFilename
      | none => .ok name
  else .notFound

/-- One upload request's inputs (clock value, fresh uuid seeds, header, body). -/
structure UploadInput where
  now : Nat
  freshName : Nat
  freshId : Nat
  token : Option String
  body : Body
deriving Repr, DecidableEq

/-- Run a sequence of upload requests, threading the server state. -/
def runUploads (env : Env) (st : St) : List UploadInput → List UploadResult × St
  | [] => ([], st)
  | i :: rest =>
    let out := uploadHandler env i.now i.freshName i.freshId i.token i.body st
    let outs := runUploads env out.2 rest
    (out.1 :: outs.1, outs.2)

/-! ## Helper lemmas -/

theorem hexChar_mem (n : Nat) : hexChar n ∈ hexDigits := by
  unfold hexChar
  have hlt : n % 16 < hexDigits.length := by
    have h16 : n % 16 < 16 := Nat.mod_lt _ (by decide)
    have hlen : hexDigits.length = 16 := rfl
    omega
  rw [List.getD_eq_getElem _ _ hlt]
  exact List.getElem_mem hlt

theorem natToHex_mem {w v : Nat} {c : Char} (h : c ∈ natToHex w v) :
    c ∈ hexDigits := by
  induction w generalizing v with
  | zero => simp [natToHex] at h
  | succ w ih =>
    unfold natToHex at h
    rcases List.mem_append.mp h with h | h
    · exact ih h
    · rw [List.mem_singleton.mp h]
      exact hexChar_mem v

theorem uuidv4_chars {seed : Nat} {c : Char} (h : c ∈ uuidv4 seed) :
    c ≠ '.' ∧ c ≠ '/' := by
  have hx : ∀ d ∈ hexDigits, d ≠ '.' ∧ d ≠ '/' := by decide
  unfold uuidv4 at h
  simp only [List.mem_append] at h
  rcases h with ((((((((h | h) | h) | h) | h) | h) | h) | h) | h)
  · exact hx c (natToHex_mem h)
  · rw [List.mem_singleton.mp h]; exact ⟨by decide, by decide⟩
  · exact hx c (natToHex_mem h)
  · rcases List.mem_cons.mp h with h | h
    · rw [h]; exact ⟨by decide, by decide⟩
    · rw [List.mem_singleton.mp h]; exact ⟨by decide, by decide⟩
  · exact hx c (natToHex_mem h)
  · rw [List.mem_singleton.mp h]; exact ⟨by decide, by decide⟩
  · exact hx c (natToHex_mem h)
  · rw [List.mem_singleton.mp h]; exact ⟨by decide, by decide⟩
  · exact hx c (natToHex_mem h)

theorem afterLast_not_mem (sep : Char) (cs : List Char) :
    sep ∉ afterLast sep cs := by
  intro h
  unfold afterLast at h
  have h2 := List.mem_takeWhile_imp (List.mem_reverse.mp h)
  simp at h2

theorem extTail_no_dot (b : List Char) : '.' ∉ extTail b := by
  intro h
  have h2 := List.mem_takeWhile_imp (List.mem_reverse.mp h)
  simp at h2

theorem extTail_subset {b : List Char} {c : Char} (h : c ∈ extTail b) : c ∈ b := by
  have h2 := List.mem_reverse.mp h
  have h3 := (List.takeWhile_prefix (l := b.reverse) (fun x => x ≠ '.')).sublist.subset h2
  exact List.mem_reverse.mp h3

theorem extname_shape (s : String) :
    extname s = "" ∨
      ∃ t, extname s = String.mk ('.' :: t) ∧ '.' ∉ t ∧ '/' ∉ t := by
  unfold extname
  by_cases h1 : afterLast '/' s.data = ['.', '.']
  · rw [if_pos h1]; exact Or.inl rfl
  · rw [if_neg h1]
    by_cases h2 : (afterLast '/' s.data).contains '.' = true
    · rw [if_pos h2]
      by_cases h3 : (extTail (afterLast '/' s.data)).length + 1 =
          (afterLast '/' s.data).length
      · rw [if_pos h3]; exact Or.inl rfl
      · rw [if_neg h3]
        refine Or.inr ⟨extTail (afterLast '/' s.data), rfl, extTail_no_dot _, ?_⟩
        intro h4
        exact afterLast_not_mem '/' s.data (extTail_subset h4)
    · rw [if_neg h2]; exact Or.inl rfl

theorem no_dotdot_of_counts {l1 l2 : List Char}
    (h1 : '.' ∉ l1) (h2 : List.count '.' l2 ≤ 1) :
    ¬ (['.', '.'] <:+: l1 ++ l2) := by
  intro h
  have hc := h.sublist.count_le '.'
  rw [List.count_append] at hc
  rw [List.count_eq_zero.mpr h1] at hc
  simp at hc
  omega

theorem multerSingle_stored_inv {freshName : Nat} {body : Body} {st st1 : St}
    {g : StoredFile}
    (h : multerSingle freshName body st = (.stored g, st1)) :
    ∃ f, body.file = some f ∧
      lowerStr (extname f.originalname) = ".exe" ∧
      f.size ≤ fileSizeLimit ∧
      g = ⟨f.originalname, String.mk (uuidv4 freshName) ++ extname f.originalname,
        f.size⟩ ∧
      st1 = { st with uploads := st.uploads ++
        [(String.mk (uuidv4 freshName) ++ extname f.originalname, f.size)] } := by
  cases hb : body.file with
  | none => simp [multerSingle, hb] at h
  | some f =>
    simp only [multerSingle, hb] at h
    by_cases he : lowerStr (extname f.originalname) = ".exe"
    · rw [if_neg (fun hc => hc he)] at h
      by_cases hs : fileSizeLimit < f.size
      · rw [if_pos hs] at h; simp at h
      · rw [if_neg hs] at h
        simp only [Prod.mk.injEq, MulterOut.stored.injEq] at h
        exact ⟨f, rfl, he, Nat.le_of_not_lt hs, h.1.symm, h.2.symm⟩
    · rw [if_pos he] at h; simp at h

theorem uploadAfterAuth_created_inv {now freshName freshId : Nat} {body : Body}
    {st st' : St} {r : SoftwareRecord}
    (h : uploadAfterAuth now freshName freshId body st = (.created r, st')) :
    ∃ f md, body.file = some f ∧
      lowerStr (extname f.originalname) = ".exe" ∧
      f.size ≤ fileSizeLimit ∧
      strTruthy body.softwareName = true ∧
      readMetadata st.metaFile = .ok md ∧
      st.writeFails = false ∧
      r = { id := String.mk (uuidv4 freshId),
            name := body.softwareName.getD "",
            version := body.softwareVersion.getD "",
            description := body.softwareDescription.getD "",
            originalFilename := f.originalname,
            serverFilename := String.mk (uuidv4 freshName) ++ extname f.originalname,
            uploadedAt := now,
            size := f.size } ∧
      st' = { st with
        metaFile := .ok (md ++ [r]),
        uploads := st.uploads ++ [(r.serverFilename, f.size)] } := by
  unfold uploadAfterAuth at h
  split at h
  · simp at h
  · simp at h
  · simp at h
  · rename_i g st1 heq
    obtain ⟨f, hf, he, hs, hg, hst1⟩ := multerSingle_stored_inv heq
    subst hg
    subst hst1
    split at h
    · simp at h
    · rename_i hn
      have hn' : strTruthy body.softwareName = true := by
        cases hv : strTruthy body.softwareName
        · exact absurd hv hn
        · rfl
      split at h
      · simp at h
      · rename_i md hread
        dsimp only at h hread
        split at h
        · simp at h
        · rename_i mf hwr
          unfold writeMetadata at hwr
          by_cases hw : st.writeFails = true
          · rw [if_pos hw] at hwr; simp at hwr
          · rw [if_neg hw] at hwr
            simp only [Except.ok.injEq] at hwr
            simp only [Prod.mk.injEq, UploadResult.created.injEq] at h
            refine ⟨f, md, hf, he, hs, hn', hread, ?_, h.1.symm, ?_⟩
            · cases hv : st.writeFails
              · rfl
              · exact absurd hv hw
            · rw [← h.2, ← hwr, ← h.1]


/-- C1: an upload request whose `x-upload-token` does not equal the configured
secret (including a missing token, and including the case of an unconfigured
secret) is rejected with the state untouched — no file is written and no record
appended — and the not-configured case (a configuration error) is an error kind
distinct from the configured-but-wrong case (an authorization error). -/
theorem upload_invalid_token_rejected
    (env : Env) (now freshName freshId : Nat) (token : Option String)
    (body : Body) (st : St)
    (h : strTruthy env.secret = false ∨ token ≠ env.secret) :
    (strTruthy env.secret = false →
      uploadHandler env now freshName freshId token body st = (.configError, st)) ∧
    (strTruthy env.secret = true →
      uploadHandler env now freshName freshId token body st = (.unauthorized, st)) ∧
    ((uploadHandler env now freshName freshId token body st).2 = st) ∧
    (UploadResult.configError ≠ UploadResult.unauthorized) := by
  by_cases hs : strTruthy env.secret = false
  · refine ⟨fun _ => ?_, fun ht => ?_, ?_, by simp⟩
    · simp [uploadHandler, hs]
    · rw [hs] at ht; exact absurd ht (by simp)
    · simp [uploadHandler, hs]
  · have hs' : strTruthy env.secret = true := by
      cases hv : strTruthy env.secret
      · exact absurd hv hs
      · rfl
    have ht : token ≠ env.secret := by
      rcases h with h | h
      · exact absurd h hs
      · exact h
    refine ⟨fun hc => absurd hc hs, fun _ => ?_, ?_, by simp⟩
    · simp [uploadHandler, hs', ht]
    · simp [uploadHandler, hs', ht]

/-- Witness for C1 at a concrete wrong-token request: the state is unchanged
and the response is the 401 constructor. -/
theorem upload_invalid_token_rejected_witness :
    uploadHandler ⟨some "sec"⟩ 0 0 1 (some "bad")
        ⟨some ⟨"app.exe", 10⟩, some "App", none, none⟩ ⟨.ok [], [], false, false⟩ =
      (.unauthorized, ⟨.ok [], [], false, false⟩) :=
  (upload_invalid_token_rejected ⟨some "sec"⟩ 0 0 1 (some "bad")
    ⟨some ⟨"app.exe", 10⟩, some "App", none, none⟩ ⟨.ok [], [], false, false⟩
    (Or.inr (by decide))).2.1 (by decide)

/-- C2: the upload route checks its preconditions in order before any multipart
parsing: an unconfigured secret yields the 500 configuration error (for every
body, so before any parsing), an exact-inequality token mismatch yields the
401 authorization error (again for every body), and only when both checks pass
does the handler run the multipart parsing stage `uploadAfterAuth`. -/
theorem upload_checks_ordered
    (env : Env) (now freshName freshId : Nat) (token : Option String)
    (body : Body) (st : St) :
    (strTruthy env.secret = false →
      uploadHandler env now freshName freshId token body st = (.configError, st)) ∧
    (strTruthy env.secret = true → token ≠ env.secret →
      uploadHandler env now freshName freshId token body st = (.unauthorized, st)) ∧
    (strTruthy env.secret = true → token = env.secret →
      uploadHandler env now freshName freshId token body st =
        uploadAfterAuth now freshName freshId body st) ∧
    UploadResult.status .configError = 500 ∧
    UploadResult.status .unauthorized = 401 := by
  refine ⟨fun hs => ?_, fun hs ht => ?_, fun hs ht => ?_, rfl, rfl⟩
  · simp [uploadHandler, hs]
  · simp [uploadHandler, hs, ht]
  · simp [uploadHandler, hs, ht]

/-- Witness for C2: with no secret configured, a concrete request is answered
by the configuration error without the body being parsed. -/
theorem upload_checks_ordered_witness :
    uploadHandler ⟨none⟩ 0 0 1 none
        ⟨some ⟨"app.exe", 10⟩, some "App", none, none⟩ ⟨.ok [], [], false, false⟩ =
      (.configError, ⟨.ok [], [], false, false⟩) :=
  (upload_checks_ordered ⟨none⟩ 0 0 1 none
    ⟨some ⟨"app.exe", 10⟩, some "App", none, none⟩ ⟨.ok [], [], false, false⟩).1 rfl

/-- C6: an authorized upload whose file's extension does not lowercase to
`.exe` is rejected by the fileFilter with the 400 validation error, and the
state is returned untouched: no file in the upload directory and no metadata
record is created. -/
theorem upload_rejects_bad_extension
    (env : Env) (now freshName freshId : Nat) (token : Option String)
    (body : Body) (st : St) (f : RawFile)
    (hsec : strTruthy env.secret = true) (htok : token = env.secret)
    (hf : body.file = some f)
    (hext : lowerStr (extname f.originalname) ≠ ".exe") :
    uploadHandler env now freshName freshId token body st =
      (.uploadError "Only .exe files are allowed!", st) ∧
    UploadResult.status (.uploadError "Only .exe files are allowed!") = 400 := by
  refine ⟨?_, rfl⟩
  simp [uploadHandler, hsec, htok, uploadAfterAuth, multerSingle, hf, hext]

/-- Witness for C6: uploading `payload.zip` with a valid token fails validation
and leaves the store and upload directory unchanged. -/
theorem upload_rejects_bad_extension_witness :
    uploadHandler ⟨some "sec"⟩ 0 0 1 (some "sec")
        ⟨some ⟨"payload.zip", 10⟩, some "App", none, none⟩ ⟨.ok [], [], false, false⟩ =
      (.uploadError "Only .exe files are allowed!", ⟨.ok [], [], false, false⟩) :=
  (upload_rejects_bad_extension ⟨some "sec"⟩ 0 0 1 (some "sec")
    ⟨some ⟨"payload.zip", 10⟩, some "App", none, none⟩ ⟨.ok [], [], false, false⟩
    ⟨"payload.zip", 10⟩ rfl rfl rfl (by decide)).1

/-- C8: a download request whose filename contains `..` as a substring or a
`/` character is answered with the 400 validation error, and the response does
not depend on the filesystem or metadata state at all. -/
theorem download_rejects_traversal (name : String) (st st2 : St)
    (h : ['.', '.'] <:+: name.data ∨ '/' ∈ name.data) :
    downloadHandler name st = .invalidName ∧
    downloadHandler name st = downloadHandler name st2 ∧
    DownloadResult.status .invalidName = 400 := by
  have hb : nameBlocked name = true := by
    unfold nameBlocked
    rcases h with h | h <;> simp [h]
  refine ⟨?_, ?_, rfl⟩ <;> simp [downloadHandler, hb]

/-- Witness for C8: both `../../etc/passwd` and `a/b` are rejected. -/
theorem download_rejects_traversal_witness :
    downloadHandler "../../etc/passwd" ⟨.ok [], [], false, false⟩ = .invalidName ∧
    downloadHandler "a/b" ⟨.ok [], [], false, false⟩ = .invalidName :=
  ⟨(download_rejects_traversal "../../etc/passwd" ⟨.ok [], [], false, false⟩
      ⟨.ok [], [], false, false⟩ (Or.inl (by decide))).1,
    (download_rejects_traversal "a/b" ⟨.ok [], [], false, false⟩
      ⟨.ok [], [], false, false⟩ (Or.inr (by decide))).1⟩

/-- C9: an authorized upload with no file part under `softwareFile` is
answered with the 400 `No file uploaded.` error and an unchanged state, for
every body with no file — in particular irrespective of the name fields, so
the missing-file check precedes the name check. -/
theorem upload_missing_file_rejected
    (env : Env) (now freshName freshId : Nat) (token : Option String)
    (body : Body) (st : St)
    (hsec : strTruthy env.secret = true) (htok : token = env.secret)
    (hf : body.file = none) :
    uploadHandler env now freshName freshId token body st = (.noFileError, st) ∧
    UploadResult.status .noFileError = 400 := by
  refine ⟨?_, rfl⟩
  simp [uploadHandler, hsec, htok, uploadAfterAuth, multerSingle, hf]

/-- Witness for C9: a concrete authorized request with no file part (and also
no name field) gets the `No file uploaded.` response with unchanged state. -/
theorem upload_missing_file_rejected_witness :
    uploadHandler ⟨some "sec"⟩ 0 0 1 (some "sec")
        ⟨none, none, none, none⟩ ⟨.ok [], [], false, false⟩ =
      (.noFileError, ⟨.ok [], [], false, false⟩) :=
  (upload_missing_file_rejected ⟨some "sec"⟩ 0 0 1 (some "sec")
    ⟨none, none, none, none⟩ ⟨.ok [], [], false, false⟩ rfl rfl rfl).1

theorem uploadHandler_created_inv {env : Env} {now freshName freshId : Nat}
    {token : Option String} {body : Body} {st st' : St} {r : SoftwareRecord}
    (h : uploadHandler env now freshName freshId token body st =
      (.created r, st')) :
    strTruthy env.secret = true ∧ token = env.secret ∧
      uploadAfterAuth now freshName freshId body st = (.created r, st') := by
  unfold uploadHandler at h
  by_cases hs : strTruthy env.secret = false
  · rw [if_pos hs] at h; simp at h
  · rw [if_neg hs] at h
    have hs2 : strTruthy env.secret = true := by
      cases hv : strTruthy env.secret
      · exact absurd hv hs
      · rfl
    by_cases ht : token = env.secret
    · rw [if_neg (fun hc => hc ht)] at h
      exact ⟨hs2, ht, h⟩
    · rw [if_pos ht] at h; simp at h

theorem uploadHandler_created_meta {env : Env} {now freshName freshId : Nat}
    {token : Option String} {body : Body} {st st' : St} {r : SoftwareRecord}
    {l : List SoftwareRecord}
    (h : uploadHandler env now freshName freshId token body st =
      (.created r, st'))
    (hm : st.metaFile = .ok l) :
    st'.metaFile = .ok (l ++ [r]) := by
  obtain ⟨-, -, h⟩ := uploadHandler_created_inv h
  obtain ⟨f, md, hf, he, hs, hn, hread, hw, hr, hst⟩ := uploadAfterAuth_created_inv h
  rw [hm] at hread
  simp [readMetadata] at hread
  rw [hst]
  simp [hread]

theorem runUploads_created_meta (env : Env) (inputs : List UploadInput) :
    ∀ (st : St) (l : List SoftwareRecord),
      st.metaFile = .ok l →
      (∀ r ∈ (runUploads env st inputs).1, ∃ s, r = .created s) →
      ∃ l2, (runUploads env st inputs).2.metaFile = .ok l2 ∧
        l2.length = l.length + inputs.length := by
  induction inputs with
  | nil =>
    intro st l hm _
    exact ⟨l, by simpa [runUploads] using hm, by simp⟩
  | cons i rest ih =>
    intro st l hm hall
    obtain ⟨s, hs⟩ := hall
      (uploadHandler env i.now i.freshName i.freshId i.token i.body st).1
      (by simp [runUploads])
    have hpair : uploadHandler env i.now i.freshName i.freshId i.token i.body st =
        (.created s,
          (uploadHandler env i.now i.freshName i.freshId i.token i.body st).2) := by
      rw [← hs]
    have hmeta := uploadHandler_created_meta hpair hm
    have hall2 : ∀ r ∈ (runUploads env
        (uploadHandler env i.now i.freshName i.freshId i.token i.body st).2
        rest).1, ∃ s2, r = .created s2 := by
      intro r hr
      refine hall r ?_
      simp [runUploads]
      exact Or.inr hr
    obtain ⟨l2, h1, h2⟩ := ih _ _ hmeta hall2
    refine ⟨l2, by simpa [runUploads] using h1, ?_⟩
    rw [h2]
    simp [List.length_append]
    omega

/-- C10: every record returned by a successful upload carries a
`serverFilename` equal to the generated uuid concatenated with the extension
of the original filename; such a name contains no `/` character and no `..`
substring, hence passes the download route's filename validation. -/
theorem upload_serverFilename_safe
    (env : Env) (now freshName freshId : Nat) (token : Option String)
    (body : Body) (st st' : St) (r : SoftwareRecord)
    (h : uploadHandler env now freshName freshId token body st =
      (.created r, st')) :
    (∃ f, body.file = some f ∧
      r.serverFilename = String.mk (uuidv4 freshName) ++ extname f.originalname) ∧
    '/' ∉ r.serverFilename.data ∧
    ¬ (['.', '.'] <:+: r.serverFilename.data) ∧
    nameBlocked r.serverFilename = false := by
  obtain ⟨-, -, h⟩ := uploadHandler_created_inv h
  obtain ⟨f, md, hf, he, hs, hn, hread, hw, hr, hst⟩ := uploadAfterAuth_created_inv h
  have hdata : r.serverFilename.data =
      uuidv4 freshName ++ (extname f.originalname).data := by
    rw [hr]
    exact String.data_append _ _
  rcases extname_shape f.originalname with he2 | ⟨t, he2, hdot, hslash⟩
  · rw [he2] at he
    exact absurd he (by decide)
  · have hslash2 : '/' ∉ r.serverFilename.data := by
      rw [hdata, he2]
      intro hmem
      rcases List.mem_append.mp hmem with hm | hm
      · exact (uuidv4_chars hm).2 rfl
      · rcases List.mem_cons.mp hm with hc | hc
        · exact absurd hc (by decide)
        · exact hslash hc
    have hdd : ¬ (['.', '.'] <:+: r.serverFilename.data) := by
      rw [hdata, he2]
      apply no_dotdot_of_counts
      · intro hm
        exact (uuidv4_chars hm).1 rfl
      · show List.count '.' ('.' :: t) ≤ 1
        rw [List.count_cons]
        rw [List.count_eq_zero.mpr hdot]
        simp
    refine ⟨⟨f, hf, by rw [hr]⟩, hslash2, hdd, ?_⟩
    unfold nameBlocked
    rw [decide_eq_false hdd, decide_eq_false hslash2]
    rfl

/-- Witness for C10 at a concrete successful upload: the generated
`serverFilename` passes the download validation. -/
theorem upload_serverFilename_safe_witness :
    nameBlocked "00000000-0000-4000-0000-000000000000.exe" = false :=
  (upload_serverFilename_safe (Env.mk (some "sec")) 5 0 1 (some "sec")
    (Body.mk (some (RawFile.mk "app.exe" 10)) (some "App") (some "1.0") none)
    (St.mk (.ok []) [] false false)
    (St.mk
      (.ok [SoftwareRecord.mk "00000001-0000-4000-0000-000000000000" "App"
        "1.0" "" "app.exe" "00000000-0000-4000-0000-000000000000.exe" 5 10])
      [("00000000-0000-4000-0000-000000000000.exe", 10)] false false)
    (SoftwareRecord.mk "00000001-0000-4000-0000-000000000000" "App" "1.0" ""
      "app.exe" "00000000-0000-4000-0000-000000000000.exe" 5 10)
    (by decide)).2.2.2

/-- C7: the listing handler is a pure read returning all records of the store
ordered by `uploadedAt` descending (a permutation of the stored records with
pairwise non-increasing timestamps); after N uploads that all succeed starting
from an empty store it returns exactly N records; a store read failure is
reported as the 500 response. -/
theorem list_returns_sorted_records (st : St) :
    (readMetadata st.metaFile = .error () →
      listHandler st = .fetchError ∧ ListResult.status .fetchError = 500) ∧
    (∀ md, readMetadata st.metaFile = .ok md →
      listHandler st = .ok (sortByUploadedAtDesc md) ∧
      (sortByUploadedAtDesc md).Perm md ∧
      (sortByUploadedAtDesc md).Pairwise
        (fun a b => b.uploadedAt ≤ a.uploadedAt)) ∧
    (∀ (env : Env) (inputs : List UploadInput),
      st.metaFile = .ok [] →
      (∀ r ∈ (runUploads env st inputs).1, ∃ s, r = .created s) →
      ∃ out, listHandler (runUploads env st inputs).2 = .ok out ∧
        out.length = inputs.length) := by
  refine ⟨fun he => ⟨by simp [listHandler, he], rfl⟩,
    fun md hm => ⟨by simp [listHandler, hm], List.mergeSort_perm md _, ?_⟩,
    fun env inputs h0 hall => ?_⟩
  · have hsorted : List.Pairwise
        (fun a b : SoftwareRecord => (decide (b.uploadedAt ≤ a.uploadedAt)) = true)
        (sortByUploadedAtDesc md) := by
      unfold sortByUploadedAtDesc
      exact List.sorted_mergeSort
        (fun a b c hab hbc => by
          simp only [decide_eq_true_eq] at hab hbc ⊢
          omega)
        (fun a b => by
          simp only [Bool.or_eq_true, decide_eq_true_eq]
          omega)
        md
    exact hsorted.imp (fun hab => by simpa using hab)
  · obtain ⟨l2, h1, h2⟩ := runUploads_created_meta env inputs st [] h0 hall
    refine ⟨sortByUploadedAtDesc l2,
      by simp [listHandler, h1, readMetadata], ?_⟩
    have hperm := List.mergeSort_perm l2
      (fun a b : SoftwareRecord => decide (b.uploadedAt ≤ a.uploadedAt))
    have hlen : (sortByUploadedAtDesc l2).length = l2.length := hperm.length_eq
    rw [hlen, h2]
    simp

/-- Witness for C7: a concrete two-record store is listed newest-first. -/
theorem list_returns_sorted_records_witness :
    listHandler (St.mk
      (.ok [SoftwareRecord.mk "i2" "b" "" "" "b.exe" "s2.exe" 7 9,
        SoftwareRecord.mk "i1" "a" "" "" "a.exe" "s1.exe" 1 9]) [] false false) =
      .ok [SoftwareRecord.mk "i2" "b" "" "" "b.exe" "s2.exe" 7 9,
        SoftwareRecord.mk "i1" "a" "" "" "a.exe" "s1.exe" 1 9] := by
  have h := ((list_returns_sorted_records (St.mk
    (.ok [SoftwareRecord.mk "i2" "b" "" "" "b.exe" "s2.exe" 7 9,
      SoftwareRecord.mk "i1" "a" "" "" "a.exe" "s1.exe" 1 9]) [] false false)).2.1
    [SoftwareRecord.mk "i2" "b" "" "" "b.exe" "s2.exe" 7 9,
      SoftwareRecord.mk "i1" "a" "" "" "a.exe" "s1.exe" 1 9] rfl).1
  rw [h]
  have hs : sortByUploadedAtDesc
      [SoftwareRecord.mk "i2" "b" "" "" "b.exe" "s2.exe" 7 9,
        SoftwareRecord.mk "i1" "a" "" "" "a.exe" "s1.exe" 1 9] =
      [SoftwareRecord.mk "i2" "b" "" "" "b.exe" "s2.exe" 7 9,
        SoftwareRecord.mk "i1" "a" "" "" "a.exe" "s1.exe" 1 9] := by
    unfold sortByUploadedAtDesc
    exact List.mergeSort_of_sorted (by decide)
  rw [hs]

/-- C4: in an authorized, fully valid upload whose metadata write fails after
the file was stored, the handler responds with the 500 storage error, the
metadata file keeps its previous content (no record appended), the just-written
file is deleted whenever the delete call succeeds, and a failed delete changes
none of this (it is only logged). -/
theorem upload_write_failure_cleanup
    (env : Env) (now freshName freshId : Nat) (token : Option String)
    (body : Body) (st : St) (f : RawFile) (md : List SoftwareRecord)
    (hsec : strTruthy env.secret = true) (htok : token = env.secret)
    (hf : body.file = some f)
    (hext : lowerStr (extname f.originalname) = ".exe")
    (hsize : f.size ≤ fileSizeLimit)
    (hname : strTruthy body.softwareName = true)
    (hread : readMetadata st.metaFile = .ok md)
    (hwrite : st.writeFails = true) :
    uploadHandler env now freshName freshId token body st =
      (.storageError,
        unlinkFile
          { st with uploads := st.uploads ++
            [(String.mk (uuidv4 freshName) ++ extname f.originalname, f.size)] }
          (String.mk (uuidv4 freshName) ++ extname f.originalname)) ∧
    (uploadHandler env now freshName freshId token body st).2.metaFile =
      st.metaFile ∧
    (st.unlinkFails = false → ∀ sz,
      (String.mk (uuidv4 freshName) ++ extname f.originalname, sz) ∉
        (uploadHandler env now freshName freshId token body st).2.uploads) ∧
    UploadResult.status .storageError = 500 := by
  have hlt : ¬ (fileSizeLimit < f.size) := Nat.not_lt.mpr hsize
  have hmain : uploadHandler env now freshName freshId token body st =
      (.storageError,
        unlinkFile
          { st with uploads := st.uploads ++
            [(String.mk (uuidv4 freshName) ++ extname f.originalname, f.size)] }
          (String.mk (uuidv4 freshName) ++ extname f.originalname)) := by
    simp [uploadHandler, hsec, htok, uploadAfterAuth, multerSingle, hf, hext,
      hlt, hname, hread, writeMetadata, hwrite]
  refine ⟨hmain, ?_, ?_, rfl⟩
  · rw [hmain]
    unfold unlinkFile
    split
    · rfl
    · rfl
  · intro hunl sz hmem
    rw [hmain] at hmem
    unfold unlinkFile at hmem
    rw [if_neg (by simp [hunl])] at hmem
    have hpred := (List.mem_filter.mp hmem).2
    simp at hpred

/-- Witness for C4: a concrete upload against a store whose write fails is
answered 500 and leaves the state exactly as before (file cleaned up, no
record). -/
theorem upload_write_failure_cleanup_witness :
    uploadHandler (Env.mk (some "sec")) 0 0 1 (some "sec")
        (Body.mk (some (RawFile.mk "app.exe" 10)) (some "App") none none)
        (St.mk (.ok []) [] true false) =
      (.storageError, St.mk (.ok []) [] true false) := by
  have h := (upload_write_failure_cleanup (Env.mk (some "sec")) 0 0 1
    (some "sec") (Body.mk (some (RawFile.mk "app.exe" 10)) (some "App") none none)
    (St.mk (.ok []) [] true false) (RawFile.mk "app.exe" 10) []
    rfl rfl rfl (by decide) (by decide) rfl rfl rfl).1
  exact h.trans (by decide)

/-- Counterexample for C5: an authorized upload with `softwareName` present
but a corrupt metadata store also writes the file during parsing and then
removes it with no record ever created, yet fails with the 500 storage error
rather than the missing-name validation error — so the missing-name case is
not the only write-then-remove path. -/
theorem upload_file_removed_on_storage_failure :
    (multerSingle 0 (Body.mk (some (RawFile.mk "app.exe" 10)) (some "App")
        none none) (St.mk .corrupt [] false false)).2.uploads =
      [("00000000-0000-4000-0000-000000000000.exe", 10)] ∧
    uploadHandler (Env.mk (some "sec")) 0 0 1 (some "sec")
        (Body.mk (some (RawFile.mk "app.exe" 10)) (some "App") none none)
        (St.mk .corrupt [] false false) =
      (.storageError, St.mk .corrupt [] false false) ∧
    UploadResult.storageError ≠ UploadResult.nameRequired ∧
    UploadResult.status .storageError = 500 := by decide

theorem uploadAfterAuth_outcomes {now freshName freshId : Nat} {body : Body}
    {st st3 : St} {g : StoredFile}
    (hms : multerSingle freshName body st = (.stored g, st3)) :
    (uploadAfterAuth now freshName freshId body st).1 = .nameRequired ∨
    (uploadAfterAuth now freshName freshId body st).1 = .storageError ∨
    (∃ r, (uploadAfterAuth now freshName freshId body st).1 = .created r ∧
      (uploadAfterAuth now freshName freshId body st).2.uploads = st3.uploads) := by
  simp only [uploadAfterAuth, hms]
  by_cases hn : strTruthy body.softwareName = false
  · rw [if_pos hn]
    exact Or.inl rfl
  · rw [if_neg hn]
    cases hrm : readMetadata st3.metaFile with
    | error e =>
      simp only [hrm]
      exact Or.inr (Or.inl trivial)
    | ok md =>
      simp only [hrm]
      split
      · exact Or.inr (Or.inl rfl)
      · exact Or.inr (Or.inr ⟨_, rfl, rfl⟩)

/-- C5 (amended): in an authorized upload of a valid `.exe` with
`softwareName` missing, when the delete call itself succeeds the just-written
file is removed, no metadata record is created and the response is the 400
`Software name is required.` validation error; and the only other path in
which the parsing stage writes a file that is gone again by the end of the
request is the storage-failure path (500 storage error). -/
theorem upload_missing_name_cleanup
    (env : Env) (now freshName freshId : Nat) (token : Option String)
    (body : Body) (st : St) (f : RawFile)
    (hsec : strTruthy env.secret = true) (htok : token = env.secret)
    (hf : body.file = some f)
    (hext : lowerStr (extname f.originalname) = ".exe")
    (hsize : f.size ≤ fileSizeLimit)
    (hname : strTruthy body.softwareName = false)
    (hunl : st.unlinkFails = false) :
    uploadHandler env now freshName freshId token body st =
      (.nameRequired,
        unlinkFile
          { st with uploads := st.uploads ++
            [(String.mk (uuidv4 freshName) ++ extname f.originalname, f.size)] }
          (String.mk (uuidv4 freshName) ++ extname f.originalname)) ∧
    (∀ sz, (String.mk (uuidv4 freshName) ++ extname f.originalname, sz) ∉
      (uploadHandler env now freshName freshId token body st).2.uploads) ∧
    (uploadHandler env now freshName freshId token body st).2.metaFile =
      st.metaFile ∧
    UploadResult.status .nameRequired = 400 ∧
    (∀ (env2 : Env) (now2 fn2 fi2 : Nat) (tok2 : Option String) (body2 : Body)
        (st2 : St) (g : StoredFile) (st3 : St),
      strTruthy env2.secret = true → tok2 = env2.secret →
      multerSingle fn2 body2 st2 = (.stored g, st3) →
      (uploadHandler env2 now2 fn2 fi2 tok2 body2 st2).2.uploads = st2.uploads →
      (uploadHandler env2 now2 fn2 fi2 tok2 body2 st2).1 = .nameRequired ∨
        (uploadHandler env2 now2 fn2 fi2 tok2 body2 st2).1 = .storageError) := by
  have hlt : ¬ (fileSizeLimit < f.size) := Nat.not_lt.mpr hsize
  have hmain : uploadHandler env now freshName freshId token body st =
      (.nameRequired,
        unlinkFile
          { st with uploads := st.uploads ++
            [(String.mk (uuidv4 freshName) ++ extname f.originalname, f.size)] }
          (String.mk (uuidv4 freshName) ++ extname f.originalname)) := by
    simp [uploadHandler, hsec, htok, uploadAfterAuth, multerSingle, hf, hext,
      hlt, hname]
  refine ⟨hmain, ?_, ?_, rfl, ?_⟩
  · intro sz hmem
    rw [hmain] at hmem
    unfold unlinkFile at hmem
    rw [if_neg (by simp [hunl])] at hmem
    have hpred := (List.mem_filter.mp hmem).2
    simp at hpred
  · rw [hmain]
    unfold unlinkFile
    split
    · rfl
    · rfl
  · intro env2 now2 fn2 fi2 tok2 body2 st2 g st3 hsec2 htok2 hms hfin
    have hha : uploadHandler env2 now2 fn2 fi2 tok2 body2 st2 =
        uploadAfterAuth now2 fn2 fi2 body2 st2 := by
      simp [uploadHandler, hsec2, htok2]
    rw [hha] at hfin ⊢
    rcases uploadAfterAuth_outcomes hms with h | h | ⟨r, hr, hu⟩
    · exact Or.inl h
    · exact Or.inr h
    · exfalso
      obtain ⟨f2, hf2, he2, hs2, hg2, hst3⟩ := multerSingle_stored_inv hms
      rw [hu, hst3] at hfin
      have hlen := congrArg List.length hfin
      simp [List.length_append] at hlen

/-- Witness for the amended C5 at a concrete missing-name upload: the file is
gone, the store untouched, and the response is the validation error. -/
theorem upload_missing_name_cleanup_witness :
    uploadHandler (Env.mk (some "sec")) 0 0 1 (some "sec")
        (Body.mk (some (RawFile.mk "app.exe" 10)) none none none)
        (St.mk (.ok []) [] false false) =
      (.nameRequired, St.mk (.ok []) [] false false) := by
  have h := (upload_missing_name_cleanup (Env.mk (some "sec")) 0 0 1
    (some "sec") (Body.mk (some (RawFile.mk "app.exe" 10)) none none none)
    (St.mk (.ok []) [] false false) (RawFile.mk "app.exe" 10)
    rfl rfl rfl (by decide) (by decide) rfl rfl).1
  exact h.trans (by decide)

/-- Counterexample for C3: with a corrupt metadata file, the download route's
metadata read failure is caught by its catch-all and reported as 404 — not as
the 500 the claim requires for every handler. -/
theorem download_metadata_failure_reported_404 :
    readMetadata MetaFile.corrupt = .error () ∧
    downloadHandler "abc.exe" (St.mk .corrupt [("abc.exe", 5)] false false) =
      .notFound ∧
    DownloadResult.status
      (downloadHandler "abc.exe" (St.mk .corrupt [("abc.exe", 5)] false false)) =
      404 ∧
    DownloadResult.status
      (downloadHandler "abc.exe" (St.mk .corrupt [("abc.exe", 5)] false false)) ≠
      500 :=
  ⟨rfl, by decide, by decide, by decide⟩

/-- C3 (amended): an unexpected metadata store failure is reported as a 500
with a generic message by the upload handler (read or write failure) and by
the listing handler (read failure); the download handler, however, reports any
failure past its filename validation — including a metadata read failure — as
a 404 through its catch-all. -/
theorem storage_failure_statuses (st : St) (name : String) :
    (readMetadata st.metaFile = .error () →
      listHandler st = .fetchError ∧ (listHandler st).status = 500) ∧
    (∀ (env : Env) (now freshName freshId : Nat) (token : Option String)
        (body : Body) (f : RawFile) (md : List SoftwareRecord),
      strTruthy env.secret = true → token = env.secret →
      body.file = some f → lowerStr (extname f.originalname) = ".exe" →
      f.size ≤ fileSizeLimit → strTruthy body.softwareName = true →
      (readMetadata st.metaFile = .error () ∨
        (readMetadata st.metaFile = .ok md ∧ st.writeFails = true)) →
      (uploadHandler env now freshName freshId token body st).1 =
        .storageError ∧ UploadResult.status .storageError = 500) ∧
    (nameBlocked name = false →
      st.uploads.any (fun p => p.1 = name) = true →
      readMetadata st.metaFile = .error () →
      downloadHandler name st = .notFound ∧
        DownloadResult.status .notFound = 404) := by
  refine ⟨fun he => ⟨by simp [listHandler, he], by simp [listHandler, he,
      ListResult.status]⟩,
    fun env now freshName freshId token body f md hsec htok hf hext hsz
      hname hfail => ?_,
    fun hb hex hrm => ⟨by simp [downloadHandler, hb, hex, hrm], rfl⟩⟩
  have hlt : ¬ (fileSizeLimit < f.size) := Nat.not_lt.mpr hsz
  rcases hfail with he | ⟨hrd, hw⟩
  · refine ⟨?_, rfl⟩
    simp [uploadHandler, hsec, htok, uploadAfterAuth, multerSingle, hf, hext,
      hlt, hname, he]
  · refine ⟨?_, rfl⟩
    simp [uploadHandler, hsec, htok, uploadAfterAuth, multerSingle, hf, hext,
      hlt, hname, hrd, writeMetadata, hw]

/-- Witness for the amended C3: a корrupt store makes the listing respond with
the 500 fetch error. -/
theorem storage_failure_statuses_witness :
    listHandler (St.mk .corrupt [] false false) = .fetchError :=
  ((storage_failure_statuses (St.mk .corrupt [] false false) "x").1 rfl).1
